import Mathlib

/-!
Verification development for the metacoder adapter layer.

Each definition below is a shallow embedding of a function of the source
tree (src/metacoder): pure control flow is translated directly, filesystem
and working-directory state is passed explicitly, Python dictionaries are
modelled as insertion-ordered association lists, and raised exceptions
become Except values.  Functions of the missing configuration module
(metacoder.configuration) are modelled from the specification and marked
as such in their doc comments.
-/

namespace Metacoder

/-! ### JSON values

Model of the values produced by the Python json module.  Numbers are kept
as exact decimal values (mantissa and power-of-ten exponent). -/

/-- A JSON number kept exactly as mantissa times ten to the exponent, the
decimal value the token denotes. -/
structure JsonNumber where
  mantissa : Int
  exponent : Int := 0
deriving Repr, DecidableEq, Inhabited

/-- The rational value of a JSON number. -/
def JsonNumber.toRat (n : JsonNumber) : Rat :=
  (n.mantissa : Rat) * (10 : Rat) ^ n.exponent

/-- A JSON value as decoded by json.loads: null, booleans, numbers (exact
decimal values), strings, arrays and objects (insertion-ordered key
lists). -/
inductive JValue where
  | null
  | bool (b : Bool)
  | num (q : JsonNumber)
  | str (s : String)
  | arr (xs : List JValue)
  | obj (fields : List (String × JValue))
deriving Repr, Inhabited

/-- Lookup of a key in a JSON object given as a field list; models reading
a key of a Python dict decoded from JSON (last binding wins, as dict
construction overwrites earlier duplicate keys). -/
def objGet (v : JValue) (key : String) : Option JValue :=
  match v with
  | .obj fields => (fields.reverse.find? (fun p => p.1 == key)).map (·.2)
  | _ => none

/-! ### A JSON parser modelling json.loads

Fuel-based recursive descent over the character list.  The fuel is the
input length plus one, which every recursive call strictly decreases while
consuming at least nothing, so the chosen fuel never runs out on inputs
the grammar accepts. -/

def lbraceChar : Char := Char.ofNat 123

def rbraceChar : Char := Char.ofNat 125

def quoteChar : Char := Char.ofNat 34

def bslashChar : Char := Char.ofNat 92

def isJsonWs (c : Char) : Bool :=
  let n := c.toNat
  n == 32 || n == 10 || n == 9 || n == 13

def isDigitChar (c : Char) : Bool :=
  48 ≤ c.toNat && c.toNat ≤ 57

def skipWs (cs : List Char) : List Char :=
  cs.dropWhile isJsonWs

def takeDigits (cs : List Char) : List Char × List Char :=
  cs.span isDigitChar

def digitsToNat (ds : List Char) : Nat :=
  ds.foldl (fun acc c => 10 * acc + (c.toNat - 48)) 0

def hexDigitVal (c : Char) : Option Nat :=
  let n := c.toNat
  if 48 ≤ n && n ≤ 57 then some (n - 48)
  else if 97 ≤ n && n ≤ 102 then some (n - 87)
  else if 65 ≤ n && n ≤ 70 then some (n - 55)
  else none

/-- Decode the body of a JSON string literal up to its closing quote,
handling the escape sequences of RFC 8259. -/
def parseStringBody : Nat → List Char → Option (String × List Char)
  | 0, _ => none
  | _, [] => none
  | fuel + 1, c :: cs =>
    if c == quoteChar then some ("", cs)
    else if c == bslashChar then
      match cs with
      | [] => none
      | e :: cs2 =>
        let charOf : Char → Option Char := fun e =>
          if e == quoteChar then some quoteChar
          else if e == bslashChar then some bslashChar
          else if e == '/' then some '/'
          else if e == 'b' then some (Char.ofNat 8)
          else if e == 'f' then some (Char.ofNat 12)
          else if e == 'n' then some '\n'
          else if e == 'r' then some '\r'
          else if e == 't' then some '\t'
          else none
        match charOf e with
        | some d =>
          match parseStringBody fuel cs2 with
          | some (s, rest) => some (String.mk (d :: s.data), rest)
          | none => none
        | none =>
          if e == 'u' then
            match cs2 with
            | h1 :: h2 :: h3 :: h4 :: cs3 =>
              match hexDigitVal h1, hexDigitVal h2, hexDigitVal h3, hexDigitVal h4 with
              | some v1, some v2, some v3, some v4 =>
                let code := ((v1 * 16 + v2) * 16 + v3) * 16 + v4
                match parseStringBody fuel cs3 with
                | some (s, rest) => some (String.mk (Char.ofNat code :: s.data), rest)
                | none => none
              | _, _, _, _ => none
            | _ => none
          else none
    else
      match parseStringBody fuel cs with
      | some (s, rest) => some (String.mk (c :: s.data), rest)
      | none => none

/-- An optional exponent marker with sign and digits; a marker without
digits is not consumed. -/
def parseExponentPart (input : List Char) : Int × List Char :=
  match input with
  | e :: r =>
    if e == 'e' || e == 'E' then
      let (expNeg, r1) :=
        match r with
        | '-' :: r2 => (true, r2)
        | '+' :: r2 => (false, r2)
        | r2 => (false, r2)
      let (expDigits, r2) := takeDigits r1
      if expDigits.isEmpty then ((0 : Int), e :: r)
      else
        let n : Int := (digitsToNat expDigits : Nat)
        ((if expNeg then -n else n), r2)
    else ((0 : Int), e :: r)
  | [] => ((0 : Int), [])

/-- Parse a JSON number (optional minus, integer part, optional fraction,
optional exponent) into its exact decimal value. -/
def parseNumber (input : List Char) : Option (JsonNumber × List Char) :=
  let (negSign, rest0) :=
    match input with
    | '-' :: r => (true, r)
    | r => (false, r)
  let (intDigits, rest1) := takeDigits rest0
  if intDigits.isEmpty then none
  else
    match rest1 with
    | '.' :: r =>
      let (fracDigits, r2) := takeDigits r
      if fracDigits.isEmpty then none
      else
        let (expVal, rest3) := parseExponentPart r2
        let mag : Int := (digitsToNat (intDigits ++ fracDigits) : Nat)
        some ({ mantissa := if negSign then -mag else mag,
                exponent := expVal - (fracDigits.length : Int) }, rest3)
    | r =>
      let (expVal, rest3) := parseExponentPart r
      let mag : Int := (digitsToNat intDigits : Nat)
      some ({ mantissa := if negSign then -mag else mag,
              exponent := expVal }, rest3)

mutual

/-- Fuel-based JSON value grammar: one step consumes leading whitespace and
parses one value, delegating element and member lists to the two list
forms below it. -/
def parseValue : Nat → List Char → Option (JValue × List Char)
  | 0, _ => none
  | fuel + 1, input =>
    match skipWs input with
    | [] => none
    | c :: cs =>
      if c == 'n' then
        match cs with
        | 'u' :: 'l' :: 'l' :: rest => some (.null, rest)
        | _ => none
      else if c == 't' then
        match cs with
        | 'r' :: 'u' :: 'e' :: rest => some (.bool true, rest)
        | _ => none
      else if c == 'f' then
        match cs with
        | 'a' :: 'l' :: 's' :: 'e' :: rest => some (.bool false, rest)
        | _ => none
      else if c == quoteChar then
        match parseStringBody (fuel + 1) cs with
        | some (s, rest) => some (.str s, rest)
        | none => none
      else if c == '[' then
        match skipWs cs with
        | ']' :: rest => some (.arr [], rest)
        | cs2 =>
          match parseElements fuel cs2 with
          | some (xs, rest) => some (.arr xs, rest)
          | none => none
      else if c == lbraceChar then
        match skipWs cs with
        | d :: rest =>
          if d == rbraceChar then some (.obj [], rest)
          else
            match parseMembers fuel (d :: rest) with
            | some (fields, rest2) => some (.obj fields, rest2)
            | none => none
        | [] => none
      else
        match parseNumber (c :: cs) with
        | some (q, rest) => some (.num q, rest)
        | none => none

/-- Comma-separated JSON array elements up to the closing bracket. -/
def parseElements : Nat → List Char → Option (List JValue × List Char)
  | 0, _ => none
  | fuel + 1, input =>
    match parseValue fuel input with
    | some (v, rest) =>
      match skipWs rest with
      | ',' :: rest2 =>
        match parseElements fuel rest2 with
        | some (xs, rest3) => some (v :: xs, rest3)
        | none => none
      | ']' :: rest2 => some ([v], rest2)
      | _ => none
    | none => none

/-- Comma-separated JSON object members up to the closing brace. -/
def parseMembers : Nat → List Char → Option (List (String × JValue) × List Char)
  | 0, _ => none
  | fuel + 1, input =>
    match skipWs input with
    | c :: cs =>
      if c == quoteChar then
        match parseStringBody fuel cs with
        | some (key, rest) =>
          match skipWs rest with
          | ':' :: rest2 =>
            match parseValue fuel rest2 with
            | some (v, rest3) =>
              match skipWs rest3 with
              | ',' :: rest4 =>
                match parseMembers fuel rest4 with
                | some (fields, rest5) => some ((key, v) :: fields, rest5)
                | none => none
              | d :: rest4 =>
                if d == rbraceChar then some ([(key, v)], rest4) else none
              | [] => none
            | none => none
          | _ => none
        | none => none
      else none
    | [] => none
end

/-- Model of json.loads: parse one JSON document and require only
whitespace after it; any other input is a decode failure (a raised
JSONDecodeError in the source, hence none here). -/
def json_loads (s : String) : Option JValue :=
  match parseValue (s.length + 1) s.data with
  | some (v, rest) => if (skipWs rest).isEmpty then some v else none
  | none => none

/-! ### String helpers

String.startsWith and String.splitOn are restated over the character
list so that closed instances evaluate; both agree with the Python
methods str.startswith and str.split with an explicit separator. -/

/-- str.startswith: the prefix test on the character list. -/
def strStartsWith (s pre : String) : Bool :=
  pre.data.isPrefixOf s.data

/-- Fuel-driven splitting worker: at each position either the separator
is consumed (closing the current piece) or one character moves into the
current piece; the fuel is the remaining input length plus one, so it
never runs out. -/
def splitOnCharsAux (sep : List Char) : Nat → List Char → List Char →
    List (List Char)
  | 0, rest, acc => [acc.reverse ++ rest]
  | _ + 1, [], acc => [acc.reverse]
  | fuel + 1, c :: cs, acc =>
    if !sep.isEmpty && sep.isPrefixOf (c :: cs) then
      acc.reverse :: splitOnCharsAux sep fuel ((c :: cs).drop sep.length) []
    else
      splitOnCharsAux sep fuel cs (c :: acc)

/-- str.split with an explicit non-empty separator: every occurrence of
the separator closes a piece, adjacent separators give empty pieces, and
the empty input gives one empty piece. -/
def strSplitOn (s sep : String) : List String :=
  (splitOnCharsAux sep.data (s.data.length + 1) s.data []).map
    (fun cs => String.mk cs)

/-! ### Association-list dictionaries

Python dicts are modelled as insertion-ordered association lists: lookup
returns the value of the last assignment, assignment overwrites an
existing binding in place and appends a fresh one. -/

/-- Lookup of the binding created by the latest assignment of key: the
tail is consulted first, so among duplicate bindings the one assigned
last wins, exactly the value a Python dict holds after the same sequence
of assignments. -/
def dget {α : Type} : List (String × α) → String → Option α
  | [], _ => none
  | p :: d, key =>
    match dget d key with
    | some v => some v
    | none => if p.1 == key then some p.2 else none

/-- Dict assignment: overwrite every binding of an existing key in place,
append a new binding otherwise (exactly the lookup semantics of Python
dict item assignment). -/
def dset {α : Type} (d : List (String × α)) (key : String) (v : α) :
    List (String × α) :=
  if d.any (fun p => p.1 == key) then
    d.map (fun p => if p.1 == key then (key, v) else p)
  else d ++ [(key, v)]

/-! ### Workdir Guard — base_coder.change_directory

The guard manipulates the working directory and an on-disk marker file.
State is explicit: a current directory, a file system (path to contents),
and the process id.  sys.exit(1) becomes the exited outcome, an exception
raised by the guarded block becomes the raised outcome and still runs the
cleanup of the finally clause. -/

/-- Name of the reserved marker file (LOCK_FILE in base_coder). -/
def LOCK_FILE : String := ".lock"

/-- Explicit process state: working directory, files on disk, process id. -/
structure SysState where
  cwd : String
  fs : List (String × String)
  pid : Nat
deriving Repr, DecidableEq

/-- Contents of a file, none when the path does not exist. -/
def fsLookup (fs : List (String × String)) (path : String) : Option String :=
  (fs.find? (fun p => p.1 == path)).map (·.2)

/-- Path.write_text: create or overwrite one file. -/
def fsWrite (fs : List (String × String)) (path contents : String) :
    List (String × String) :=
  (path, contents) :: fs.filter (fun p => p.1 ≠ path)

/-- Path.unlink: remove one file. -/
def fsErase (fs : List (String × String)) (path : String) :
    List (String × String) :=
  fs.filter (fun p => p.1 ≠ path)

/-- Path of the marker file inside the guarded directory. -/
def lockFilePath (path : String) : String := path ++ "/" ++ LOCK_FILE

/-- Outcome of one guard acquisition: the process exited via sys.exit,
the block completed with a value, or the block raised and the exception
propagates after cleanup. -/
inductive GuardResult (α : Type) where
  | exited (code : Nat)
  | ok (a : α)
  | raised (e : String)
deriving Repr

/-- One run of the guarded block: from the state it is entered in, either
a value plus the state at return, or an exception message plus the state
at the raise point. -/
def GuardBody (α : Type) : Type :=
  SysState → Except (String × SysState) (α × SysState)

/-- Shallow embedding of base_coder.change_directory applied to one
guarded block.  If the marker exists the process exits with status 1
before entering the block; otherwise the pid is written to the marker,
the working directory moves to the target, the block runs, and the
finally clause restores the original directory and unlinks the marker on
both the normal and the raising exit path. -/
def change_directory {α : Type} (path : String) (s : SysState)
    (body : GuardBody α) : GuardResult α × SysState :=
  let original_dir := s.cwd
  let lock_file := lockFilePath path
  if (fsLookup s.fs lock_file).isSome then
    (.exited 1, s)
  else
    let entered : SysState :=
      { s with cwd := path, fs := fsWrite s.fs lock_file (toString s.pid) }
    match body entered with
    | .ok (a, s3) =>
      (.ok a, { s3 with cwd := original_dir, fs := fsErase s3.fs lock_file })
    | .error (e, s3) =>
      (.raised e, { s3 with cwd := original_dir, fs := fsErase s3.fs lock_file })

/-! ### Normalized result and Process Runner — base_coder -/

/-- CoderOutput: the normalized result of one assistant invocation. -/
structure CoderOutput where
  stdout : String
  stderr : String
  result_text : Option String := none
  total_cost_usd : Option JsonNumber := none
  success : Option Bool := none
  structured_messages : Option (List JValue) := none
deriving Repr

/-- Observable behaviour of one child process: the lines readline yields
on each stream, in the emission order of the child (each line carries its
trailing newline exactly as the pipe delivered it), and the exit status. -/
structure ChildBehavior where
  stdout_lines : List String
  stderr_lines : List String
  exit_code : Int
deriving Repr, DecidableEq

/-- Shallow embedding of BaseCoder.run_process: both streams are drained
concurrently line by line into per-stream accumulators, the process is
awaited, a non-zero exit status raises CalledProcessError (carrying the
status and the command), and a zero status returns the accumulated lines
of each stream rejoined with a newline separator. -/
def run_process (command : List String) (child : ChildBehavior) :
    Except (Int × List String) CoderOutput :=
  let stdout_acc := String.intercalate "\n" child.stdout_lines
  let stderr_acc := String.intercalate "\n" child.stderr_lines
  if child.exit_code ≠ 0 then
    .error (child.exit_code, command)
  else
    .ok { stdout := stdout_acc, stderr := stderr_acc }

/-! ### Environment Expander — BaseCoder.expand_env

The process environment and the input mapping are insertion sequences of
bindings; the result binds keys to Option String because an indirect
reference to an unset name stores the Python None sentinel in the result
dict, which is distinct from an empty string. -/

/-- os.getenv on the modelled process environment. -/
def getenv (environ : List (String × String)) (name : String) : Option String :=
  dget environ name

/-- Shallow embedding of BaseCoder.expand_env: start from a copy of the
process environment, then for each input binding either store the literal
value or, when the value starts with the dollar sentinel, store the
result of looking the referenced name up in the process environment
(None, that is none, when it is unset). -/
def expand_env (environ : List (String × String))
    (env : List (String × String)) : List (String × Option String) :=
  let expanded_env : List (String × Option String) :=
    environ.map (fun p => (p.1, some p.2))
  env.foldl
    (fun acc p =>
      if strStartsWith p.2 "$" then dset acc p.1 (getenv environ (p.2.drop 1))
      else dset acc p.1 (some p.2))
    expanded_env

/-! ### Claude adapter parse step — ClaudeCoder.run

After run_process returns, stdout is split on newlines, every non-empty
line is decoded as one JSON object, and one scan over the decoded
messages keeps the last seen total_cost_usd, is_error and result field. -/

/-- Non-empty lines of stdout, in order (the list comprehension filter). -/
def nonempty_lines (stdout : String) : List String :=
  (strSplitOn stdout "\n").filter (fun line => line ≠ "")

/-- Decode every non-empty stdout line as one JSON object; a single
undecodable line fails the whole comprehension (raised JSONDecodeError). -/
def parse_structured_messages (stdout : String) : Option (List JValue) :=
  (nonempty_lines stdout).mapM json_loads

/-- One pass of the message loop of ClaudeCoder.run: each message that
contains the field overwrites the running value, so the last containing
message wins.  Components: total_cost_usd, is_error, result. -/
def claude_scan (msgs : List JValue) :
    Option JValue × Option JValue × Option JValue :=
  msgs.foldl
    (fun acc m =>
      let cost := match objGet m "total_cost_usd" with
        | some v => some v
        | none => acc.1
      let err := match objGet m "is_error" with
        | some v => some v
        | none => acc.2.1
      let res := match objGet m "result" with
        | some v => some v
        | none => acc.2.2
      (cost, err, res))
    (none, none, none)

/-- The whole Claude parse step: decode the lines, then scan them. -/
def claude_parse (stdout : String) :
    Option (Option JValue × Option JValue × Option JValue) :=
  (parse_structured_messages stdout).map claude_scan

/-- Value of a field in the last JSON object of the list that contains
it, the reference reading of the last-occurrence-wins rule. -/
def lastFieldValue (msgs : List JValue) (key : String) : Option JValue :=
  msgs.reverse.findSome? (fun m => objGet m key)

/-! ### Gemini adapter parse step — GeminiCoder.run

stdout is scanned line by line; a line starting with the debug tag closes
the current free-text block when non-empty and, when it matches the
debug-line pattern, appends one typed block whose text is the trailing
text of the tag line itself; every other line appends itself plus a
newline to the current free-text block. -/

/-- One parsed output block: the optional debug type key and the text
(the Python dicts with keys debug_type and text). -/
structure GBlock where
  debug_type : Option String := none
  text : String
deriving Repr, DecidableEq

/-- Model of re.match applied to the raw pattern matching a debug tag
line: the line must start with the tag-and-bracket prefix, the first
greedy group runs to the last occurrence of the closing bracket plus
space, and the second group is the rest of the line. -/
def debugTagMatch (line : String) : Option (String × String) :=
  if strStartsWith line "[DEBUG] [" then
    let rest := line.drop 9
    let parts := strSplitOn rest "] "
    match parts.reverse with
    | [] => none
    | [_] => none
    | lastPart :: revInit =>
      some (String.intercalate "] " revInit.reverse, lastPart)
  else none

/-- Shallow embedding of the block loop of GeminiCoder.run, folding over
the split lines with the accumulated block list and the current
free-text block, then flushing a non-empty final block. -/
def gemini_blocks (stdout : String) : List GBlock :=
  let lines := strSplitOn stdout "\n"
  let step : List GBlock × String → String → List GBlock × String :=
    fun st line =>
      let blocks := st.1
      let cur := st.2
      if strStartsWith line "[DEBUG]" then
        let flushed : List GBlock × String :=
          if cur ≠ "" then (blocks ++ [{ text := cur }], "") else (blocks, cur)
        match debugTagMatch line with
        | some (ty, txt) =>
          (flushed.1 ++ [{ debug_type := some ty, text := txt }], flushed.2)
        | none => flushed
      else (blocks, cur ++ line ++ "\n")
  let final := lines.foldl step ([], "")
  if final.2 ≠ "" then final.1 ++ [{ text := final.2 }] else final.1

/-- Result text chosen by GeminiCoder.run: the text of the last block,
falling back to raw stdout when no block was produced. -/
def gemini_result_text (stdout : String) : String :=
  match (gemini_blocks stdout).getLast? with
  | some b => b.text
  | none => stdout

/-! ### Config Materializer — BaseCoder.prepare_workdir

FileType is a string-valued enumeration in the source; the dispatch in
prepare_workdir compares the field against the three known values and
raises ValueError for anything else, so the field is modelled as a plain
string.  The YAML and JSON encoders are external collaborators (the spec
places serialization outside the core), so the materializer takes them
as parameters and the theorems quantify over them. -/

/-- FileType.TEXT. -/
def FileTypeTEXT : String := "text"

/-- FileType.YAML. -/
def FileTypeYAML : String := "yaml"

/-- FileType.JSON. -/
def FileTypeJSON : String := "json"

/-- CoderConfigObject: one file to materialize into the workdir. -/
structure CoderConfigObject where
  file_type : String := FileTypeTEXT
  relative_path : String
  content : JValue
deriving Repr

/-- One loop iteration of prepare_workdir: write the content verbatim for
the text kind (write_text raises TypeError on a non-string content),
serialize with the respective encoder for the YAML and JSON kinds, and
raise ValueError for any other file type. -/
def materialize_object (yaml_dump json_dumps : JValue → String)
    (fs : List (String × String)) (obj : CoderConfigObject) :
    Except String (List (String × String)) :=
  if obj.file_type == FileTypeTEXT then
    match obj.content with
    | .str s => .ok (fsWrite fs obj.relative_path s)
    | _ => .error "TypeError: write_text expects str"
  else if obj.file_type == FileTypeYAML then
    .ok (fsWrite fs obj.relative_path (yaml_dump obj.content))
  else if obj.file_type == FileTypeJSON then
    .ok (fsWrite fs obj.relative_path (json_dumps obj.content))
  else
    .error ("Unknown file type: " ++ obj.file_type)

/-- The materialization loop of prepare_workdir over the config-object
list, stopping at the first raised error. -/
def materialize_objects (yaml_dump json_dumps : JValue → String)
    (fs : List (String × String)) :
    List CoderConfigObject → Except String (List (String × String))
  | [] => .ok fs
  | obj :: rest =>
    match materialize_object yaml_dump json_dumps fs obj with
    | .ok fs2 => materialize_objects yaml_dump json_dumps fs2 rest
    | .error e => .error e

/-- The run sequencing every coder follows: prepare_workdir materializes
all config objects first, and only when that succeeded is the subprocess
launched on the resulting file system. -/
def run_after_prepare {α : Type} (yaml_dump json_dumps : JValue → String)
    (fs : List (String × String)) (objs : List CoderConfigObject)
    (invoke : List (String × String) → α) : Except String α :=
  match materialize_objects yaml_dump json_dumps fs objs with
  | .ok fs2 => .ok (invoke fs2)
  | .error e => .error e

/-! ### Extension declarations — metacoder.configuration

Modelled from the spec: the module metacoder.configuration (MCPType,
MCPConfig, MCPCollectionConfig and the CoderConfig used by the
orchestrator) is not under src; its shape is reconstructed from the
specification of ExtensionDeclaration and AssistantConfig and from the
uses in the adapters.  Python truthiness of the optional fields is kept:
a command is truthy when present and non-empty, argument and environment
lists are truthy when non-empty (the empty list also stands for the
Python None default, which is falsy in the same way). -/

/-- Modelled from the spec: the two transport kinds of an extension
declaration (MCPType with values stdio and http). -/
inductive MCPType where
  | stdio
  | http
deriving Repr, DecidableEq

/-- The string value of the enumeration member (MCPType.value). -/
def MCPType.value : MCPType → String
  | .stdio => "stdio"
  | .http => "http"

/-- Modelled from the spec: one extension/tool declaration (MCPConfig):
unique name, enabled flag, transport kind, optional description, launch
command, argument list and environment variables for the pipe-based
kind. -/
structure MCPConfig where
  name : String
  description : Option String := none
  enabled : Bool := true
  type : MCPType := .stdio
  command : Option String := none
  args : List String := []
  env : List (String × String) := []
deriving Repr, DecidableEq

/-- Python truthiness of an optional string field. -/
def optStrTruthy : Option String → Bool
  | none => false
  | some s => s ≠ ""

/-! ### Claude extension translation — claude.py -/

/-- Shallow embedding of ClaudeCoder.mcp_config_to_claude_format: a
stdio declaration with a truthy command yields a server dict carrying
the command plus the args and env when truthy; an http declaration
raises NotImplementedError; anything else returns the empty dict. -/
def mcp_config_to_claude_format (mcp : MCPConfig) :
    Except String (List (String × JValue)) :=
  if mcp.type == MCPType.stdio && optStrTruthy mcp.command then
    let cfg := [("command", JValue.str (mcp.command.getD ""))]
    let cfg := if !mcp.args.isEmpty then
        cfg ++ [("args", JValue.arr (mcp.args.map JValue.str))]
      else cfg
    let cfg := if !mcp.env.isEmpty then
        cfg ++ [("env", JValue.obj (mcp.env.map (fun p => (p.1, JValue.str p.2))))]
      else cfg
    .ok cfg
  else if mcp.type == MCPType.http then
    .error "HTTP MCPs are not supported for this wrapper yet"
  else
    .ok []

/-- The mcpServers dict built by ClaudeCoder.default_config_objects:
every enabled declaration is translated and assigned under its name,
disabled ones are skipped, and a raised translation error propagates. -/
def claude_mcp_servers_from (acc : List (String × JValue)) :
    List MCPConfig → Except String (List (String × JValue))
  | [] => .ok acc
  | mcp :: rest =>
    if mcp.enabled then
      match mcp_config_to_claude_format mcp with
      | .ok cfg =>
        claude_mcp_servers_from (dset acc mcp.name (JValue.obj cfg)) rest
      | .error e => .error e
    else claude_mcp_servers_from acc rest

/-- The mcpServers dict of the Claude adapter for one extension list. -/
def claude_mcp_servers (extensions : List MCPConfig) :
    Except String (List (String × JValue)) :=
  claude_mcp_servers_from [] extensions

/-! ### Gemini extension translation — gemini.py -/

/-- Shallow embedding of GeminiCoder.mcp_config_to_gemini_format: like
the Claude translation but with a defaulted timeout of 30000 appended to
the stdio server dict. -/
def mcp_config_to_gemini_format (mcp : MCPConfig) :
    Except String (List (String × JValue)) :=
  if mcp.type == MCPType.stdio && optStrTruthy mcp.command then
    let cfg := [("command", JValue.str (mcp.command.getD ""))]
    let cfg := if !mcp.args.isEmpty then
        cfg ++ [("args", JValue.arr (mcp.args.map JValue.str))]
      else cfg
    let cfg := if !mcp.env.isEmpty then
        cfg ++ [("env", JValue.obj (mcp.env.map (fun p => (p.1, JValue.str p.2))))]
      else cfg
    .ok (cfg ++ [("timeout", JValue.num { mantissa := 30000 })])
  else if mcp.type == MCPType.http then
    .error "HTTP MCPs are not supported for Gemini CLI yet"
  else
    .ok []

/-- The mcpServers dict built by GeminiCoder.default_config_objects. -/
def gemini_mcp_servers_from (acc : List (String × JValue)) :
    List MCPConfig → Except String (List (String × JValue))
  | [] => .ok acc
  | mcp :: rest =>
    if mcp.enabled then
      match mcp_config_to_gemini_format mcp with
      | .ok cfg =>
        gemini_mcp_servers_from (dset acc mcp.name (JValue.obj cfg)) rest
      | .error e => .error e
    else gemini_mcp_servers_from acc rest

/-- The mcpServers dict of the Gemini adapter for one extension list. -/
def gemini_mcp_servers (extensions : List MCPConfig) :
    Except String (List (String × JValue)) :=
  gemini_mcp_servers_from [] extensions

/-! ### Goose extension translation — goose.py -/

/-- Shallow embedding of GooseCoder.mcp_config_to_goose_extension: a
dict literal with name, enabled, a defaulted timeout of 300 and the type
string, then conditional assignments for description, cmd, args and the
env pair, and a null bundled marker.  No transport kind raises here: an
http declaration simply gets type http. -/
def mcp_config_to_goose_extension (mcp : MCPConfig) : List (String × JValue) :=
  let ext : List (String × JValue) :=
    [ ("name", JValue.str mcp.name),
      ("enabled", JValue.bool mcp.enabled),
      ("timeout", JValue.num { mantissa := 300 }),
      ("type", JValue.str
        (if mcp.type == MCPType.stdio then "stdio" else mcp.type.value)) ]
  let ext := if optStrTruthy mcp.description then
      ext ++ [("description", JValue.str (mcp.description.getD ""))]
    else ext
  let ext := if optStrTruthy mcp.command then
      ext ++ [("cmd", JValue.str (mcp.command.getD ""))]
    else ext
  let ext := if !mcp.args.isEmpty then
      ext ++ [("args", JValue.arr (mcp.args.map JValue.str))]
    else ext
  let ext := if !mcp.env.isEmpty then
      ext ++ [("envs", JValue.obj (mcp.env.map (fun p => (p.1, JValue.str p.2)))),
              ("env_keys", JValue.arr (mcp.env.map (fun p => JValue.str p.1)))]
    else
      ext ++ [("envs", JValue.obj []), ("env_keys", JValue.arr [])]
  ext ++ [("bundled", JValue.null)]

/-- The built-in developer entry that GooseCoder.default_config_objects
always places in the extensions dict. -/
def goose_developer_entry : JValue :=
  JValue.obj
    [ ("bundled", JValue.bool true),
      ("display_name", JValue.str "Developer"),
      ("enabled", JValue.bool true),
      ("name", JValue.str "developer"),
      ("timeout", JValue.num { mantissa := 300 }),
      ("type", JValue.str "builtin") ]

/-- The extensions dict of the Goose config.yaml: the built-in developer
entry, then every enabled declaration assigned under its name. -/
def goose_extensions_dict (extensions : List MCPConfig) :
    List (String × JValue) :=
  extensions.foldl
    (fun acc mcp =>
      if mcp.enabled then
        dset acc mcp.name (JValue.obj (mcp_config_to_goose_extension mcp))
      else acc)
    [("developer", goose_developer_entry)]

/-! ### Extension merging — metacoder.merge_mcp_extensions -/

/-- Modelled from the spec: the AI model record of AssistantConfig. -/
structure AIModelConfig where
  name : String
  provider : Option String := none
deriving Repr, DecidableEq

/-- Modelled from the spec: the AssistantConfig of the orchestrator
(metacoder.configuration.CoderConfig), an AI model plus the ordered
extension list. -/
structure CoderConfig where
  ai_model : AIModelConfig
  extensions : List MCPConfig
deriving Repr, DecidableEq

/-- Modelled from the spec: an externally supplied extension collection
(MCPCollectionConfig) with its server list. -/
structure MCPCollectionConfig where
  servers : List MCPConfig
deriving Repr, DecidableEq

/-- Shallow embedding of metacoder.merge_mcp_extensions: without a
collection the config passes through; without a config a minimal default
is created; the collection is filtered by the enabled flag (or by the
explicitly requested names), and each filtered server is appended unless
its name is already among the names present before the merge started. -/
def merge_mcp_extensions (coder_config : Option CoderConfig)
    (mcp_collection : Option MCPCollectionConfig)
    (enabled_mcps : Option (List String)) : Option CoderConfig :=
  match mcp_collection with
  | none => coder_config
  | some coll =>
    let cfg := coder_config.getD
      { ai_model := { name := "gpt-4" }, extensions := [] }
    let mcps_to_add := coll.servers.filter
      (fun mcp =>
        match enabled_mcps with
        | none => mcp.enabled
        | some names => mcp.name ∈ names)
    let existing_names := cfg.extensions.map (·.name)
    some
      { cfg with
        extensions := cfg.extensions ++
          mcps_to_add.filter (fun mcp => mcp.name ∉ existing_names) }

/-- The filtered collection entries that merge_mcp_extensions appends:
the servers selected by the enabled flag (or the explicitly requested
names) whose names are not already present in the config. -/
def merged_added (cfg : CoderConfig) (coll : MCPCollectionConfig)
    (enabled_mcps : Option (List String)) : List MCPConfig :=
  (coll.servers.filter
    (fun mcp =>
      match enabled_mcps with
      | none => mcp.enabled
      | some names => mcp.name ∈ names)).filter
    (fun mcp => mcp.name ∉ cfg.extensions.map (·.name))

/-! ### Config-object caching — BaseCoder.prepare_workdir, first line

prepare_workdir derives the config objects only when the instance field
is still None and stores them on the instance, so a later run reuses the
stored list. -/

/-- The first step of prepare_workdir on the mutable config_objects
field: the objects materialized by this run and the field value left for
the next run. -/
def prepare_config_objects (stored : Option (List CoderConfigObject))
    (defaults : List CoderConfigObject) :
    List CoderConfigObject × Option (List CoderConfigObject) :=
  match stored with
  | none => (defaults, some defaults)
  | some objs => (objs, some objs)

/-! ## Theorems -/

/-! ### Helper lemmas on the file-system and dictionary models -/

theorem fsLookup_fsWrite_self (fs : List (String × String)) (path contents : String) :
    fsLookup (fsWrite fs path contents) path = some contents := by
  simp [fsLookup, fsWrite]

theorem fsLookup_fsErase_self (fs : List (String × String)) (path : String) :
    fsLookup (fsErase fs path) path = none := by
  simp only [fsLookup, fsErase]
  rw [List.find?_eq_none.mpr]
  · rfl
  · intro x hx
    simp only [List.mem_filter, decide_not] at hx
    simpa using hx.2

/-! ### Claim C1 — the Workdir Guard -/

/-- Claim C1: on a guard acquisition, a pre-existing marker file makes
the process exit with status 1 before the block runs and leaves the
whole state (marker included) untouched, for every possible block; when
the marker is absent, the block is entered with the process id written
to the marker and the working directory moved to the target, and on both
the normal and the raising exit path the original working directory is
restored and the marker file is gone. -/
theorem change_directory_guard {α : Type} (path : String) (s : SysState)
    (body : GuardBody α) :
    ((fsLookup s.fs (lockFilePath path)).isSome = true →
      change_directory path s body = (.exited 1, s)) ∧
    ((fsLookup s.fs (lockFilePath path)).isSome = false →
      (({ s with
          cwd := path,
          fs := fsWrite s.fs (lockFilePath path) (toString s.pid) } : SysState).cwd
            = path ∧
        fsLookup (fsWrite s.fs (lockFilePath path) (toString s.pid))
          (lockFilePath path) = some (toString s.pid)) ∧
      (∀ a s3,
        body { s with
               cwd := path,
               fs := fsWrite s.fs (lockFilePath path) (toString s.pid) }
            = .ok (a, s3) →
        (change_directory path s body).1 = .ok a ∧
        (change_directory path s body).2.cwd = s.cwd ∧
        fsLookup (change_directory path s body).2.fs (lockFilePath path) = none) ∧
      (∀ e s3,
        body { s with
               cwd := path,
               fs := fsWrite s.fs (lockFilePath path) (toString s.pid) }
            = .error (e, s3) →
        (change_directory path s body).1 = .raised e ∧
        (change_directory path s body).2.cwd = s.cwd ∧
        fsLookup (change_directory path s body).2.fs (lockFilePath path) = none)) := by
  refine ⟨fun h => ?_, fun h => ⟨⟨rfl, fsLookup_fsWrite_self ..⟩, ?_, ?_⟩⟩
  · simp [change_directory, h]
  · intro a s3 hb
    simp [change_directory, h, hb, fsLookup_fsErase_self]
  · intro e s3 hb
    simp [change_directory, h, hb, fsLookup_fsErase_self]

/-- Witness for C1 at concrete states: a state whose target directory
already holds the marker exits untouched, and a state without the marker
runs a raising block yet ends with the original directory restored and
the marker deleted. -/
theorem change_directory_guard_witness :
    change_directory "w" ⟨"/home", [("w/.lock", "9")], 7⟩
        (fun st => .ok ((0 : Nat), st))
      = (.exited 1, ⟨"/home", [("w/.lock", "9")], 7⟩) ∧
    ((change_directory "w" (⟨"/home", [], 7⟩ : SysState)
        (fun st => .error ("boom", st)) (α := Nat)).2.cwd = "/home" ∧
      fsLookup (change_directory "w" (⟨"/home", [], 7⟩ : SysState)
        (fun st => .error ("boom", st)) (α := Nat)).2.fs (lockFilePath "w")
          = none) :=
  ⟨(change_directory_guard "w" ⟨"/home", [("w/.lock", "9")], 7⟩
      (fun st => .ok ((0 : Nat), st))).1 rfl,
    (((change_directory_guard "w" (⟨"/home", [], 7⟩ : SysState)
        (fun st => .error ("boom", st)) (α := Nat)).2 rfl).2.2
      "boom" _ rfl).2⟩

/-! ### Claim C2 — the Process Runner -/

/-- Claim C2: a child that exits with status zero yields a result whose
stdout and stderr are all accumulated lines of the respective stream
rejoined in emission order, and any non-zero status raises the
invocation error carrying the status and the command instead of
returning a result. -/
theorem run_process_streams (command : List String) (child : ChildBehavior) :
    (child.exit_code = 0 →
      run_process command child =
        .ok { stdout := String.intercalate "\n" child.stdout_lines,
              stderr := String.intercalate "\n" child.stderr_lines }) ∧
    (child.exit_code ≠ 0 →
      run_process command child = .error (child.exit_code, command)) := by
  constructor
  · intro h
    simp [run_process, h]
  · intro h
    simp [run_process, h]

/-- Witness for C2: a concrete two-line stdout, one-line stderr child
exiting 0 returns both joined streams, and a child exiting 2 raises. -/
theorem run_process_streams_witness :
    run_process ["cmd"] ⟨["a\n", "b\n"], ["e\n"], 0⟩ =
      .ok { stdout := "a\n\nb\n", stderr := "e\n" } ∧
    run_process ["cmd"] ⟨[], [], 2⟩ = .error (2, ["cmd"]) :=
  ⟨(run_process_streams ["cmd"] ⟨["a\n", "b\n"], ["e\n"], 0⟩).1 rfl,
    (run_process_streams ["cmd"] ⟨[], [], 2⟩).2 (by decide)⟩

/-! ### Claim C10 — config objects are cached, not regenerated -/

/-- Claim C10 counterexample: after a first run has stored its derived
config objects on the instance, a second run whose defaults differ still
materializes the stored objects of the first run, so the second run does
not regenerate them. -/
theorem prepare_config_objects_not_regenerated :
    ((prepare_config_objects
        (prepare_config_objects none
          [{ relative_path := "a", content := .str "1" }]).2
        [{ relative_path := "b", content := .str "2" }]).1.map
      (·.relative_path)) = ["a"] ∧ "a" ≠ "b" :=
  ⟨rfl, by decide⟩

/-- Claim C10 amended: the config objects are derived from the defaults
only on the first run, which stores them on the instance; every later
run reuses the stored list unchanged, whatever its own defaults are. -/
theorem prepare_config_objects_cached
    (defaults : List CoderConfigObject) :
    prepare_config_objects none defaults = (defaults, some defaults) ∧
    ∀ objs, prepare_config_objects (some objs) defaults = (objs, some objs) :=
  ⟨rfl, fun _ => rfl⟩

/-! ### Dictionary lemmas -/

theorem dget_append {α : Type} (l1 l2 : List (String × α)) (k : String) :
    dget (l1 ++ l2) k =
      match dget l2 k with
      | some v => some v
      | none => dget l1 k := by
  induction l1 with
  | nil =>
    cases h : dget l2 k <;> simp [dget, h]
  | cons p l1 ih =>
    rw [List.cons_append]
    cases h : dget l2 k <;> simp [dget, ih, h]

theorem dget_map_overwrite {α : Type} (d : List (String × α))
    (k k2 : String) (v : α) :
    dget (d.map (fun p => if p.1 == k then (k, v) else p)) k2 =
      if k2 = k then (dget d k).map (fun _ => v) else dget d k2 := by
  induction d with
  | nil => by_cases h : k2 = k <;> simp [dget, h]
  | cons p d ih =>
    rw [List.map_cons]
    simp only [beq_iff_eq] at ih
    by_cases h : k2 = k
    · subst h
      cases hd : dget d k2 with
      | some w => simp [dget, ih, hd]
      | none =>
        by_cases hp : p.1 = k2 <;> simp [dget, ih, hd, hp]
    · cases hd : dget d k2 with
      | some w => simp [dget, ih, hd, h]
      | none =>
        by_cases hp : p.1 = k
        · simp [dget, ih, hd, h, hp, Ne.symm h]
        · simp [dget, ih, hd, h, hp]

theorem any_key_eq_dget_isSome {α : Type} (d : List (String × α)) (k : String) :
    d.any (fun p => p.1 == k) = (dget d k).isSome := by
  induction d with
  | nil => rfl
  | cons p d ih =>
    cases hd : dget d k with
    | some w => simp [dget, List.any_cons, ih, hd]
    | none =>
      by_cases hp : p.1 = k <;> simp [dget, List.any_cons, ih, hd, hp]

theorem dget_dset_eq {α : Type} (d : List (String × α)) (k : String) (v : α) :
    dget (dset d k v) k = some v := by
  unfold dset
  by_cases h : d.any (fun p => p.1 == k) = true
  · rw [if_pos h, dget_map_overwrite, if_pos rfl]
    rw [any_key_eq_dget_isSome] at h
    cases hd : dget d k with
    | some w => rfl
    | none => rw [hd] at h; simp at h
  · rw [if_neg h, dget_append]
    simp [dget]

theorem dget_dset_ne {α : Type} (d : List (String × α)) (k k2 : String)
    (v : α) (h : k2 ≠ k) :
    dget (dset d k v) k2 = dget d k2 := by
  unfold dset
  by_cases hany : d.any (fun p => p.1 == k) = true
  · rw [if_pos hany, dget_map_overwrite, if_neg h]
  · rw [if_neg hany, dget_append]
    simp [dget, Ne.symm h]

theorem dget_map_some (environ : List (String × String)) (k : String) :
    dget (environ.map (fun p => (p.1, some p.2))) k =
      (dget environ k).map some := by
  induction environ with
  | nil => rfl
  | cons p environ ih =>
    cases h : dget environ k <;> simp [dget, ih, h]

/-! ### Claim C5 — the Environment Expander -/

theorem dget_expand_env (environ env : List (String × String)) (k : String) :
    dget (expand_env environ env) k =
      match dget env k with
      | some v =>
        some (if strStartsWith v "$" then getenv environ (v.drop 1) else some v)
      | none => (getenv environ k).map some := by
  unfold expand_env
  induction env using List.reverseRecOn with
  | nil =>
    simp only [List.foldl_nil]
    cases h : dget environ k <;> simp [dget, getenv, dget_map_some, h]
  | append_singleton xs x ih =>
    rw [List.foldl_append, List.foldl_cons, List.foldl_nil]
    by_cases hk : k = x.1
    · subst hk
      by_cases hs : strStartsWith x.2 "$"
      · simp only [hs, if_true]
        rw [dget_dset_eq, dget_append]
        simp [dget, hs]
      · simp only [hs, Bool.false_eq_true, if_false]
        rw [dget_dset_eq, dget_append]
        simp [dget, hs]
    · have hrw :
          (if strStartsWith x.2 "$" = true then
            dset (List.foldl
              (fun acc p =>
                if strStartsWith p.2 "$" = true then
                  dset acc p.1 (getenv environ (p.2.drop 1))
                else dset acc p.1 (some p.2))
              (List.map (fun p => (p.1, some p.2)) environ) xs) x.1
                (getenv environ (x.2.drop 1))
          else
            dset (List.foldl
              (fun acc p =>
                if strStartsWith p.2 "$" = true then
                  dset acc p.1 (getenv environ (p.2.drop 1))
                else dset acc p.1 (some p.2))
              (List.map (fun p => (p.1, some p.2)) environ) xs) x.1 (some x.2)) =
          dset (List.foldl
            (fun acc p =>
              if strStartsWith p.2 "$" = true then
                dset acc p.1 (getenv environ (p.2.drop 1))
              else dset acc p.1 (some p.2))
            (List.map (fun p => (p.1, some p.2)) environ) xs) x.1
              (if strStartsWith x.2 "$" = true then getenv environ (x.2.drop 1)
                else some x.2) := by
        by_cases hs : strStartsWith x.2 "$" <;> simp [hs]
      rw [hrw, dget_dset_ne _ _ _ _ hk, ih, dget_append]
      simp [dget, Ne.symm hk]

/-- Claim C5: the Environment Expander overlays the input mapping on a
copy of the process environment; the latest binding of a key to a
literal value overrides any inherited value, the latest binding to an
indirect dollar reference resolves through the process environment, an
indirect reference to an unset name stores the None sentinel (which is
not the empty string), and unmentioned keys keep their inherited
value. -/
theorem expand_env_spec (environ env : List (String × String)) (k : String) :
    (∀ v, dget env k = some v → strStartsWith v "$" = false →
      dget (expand_env environ env) k = some (some v)) ∧
    (∀ v, dget env k = some v → strStartsWith v "$" = true →
      dget (expand_env environ env) k = some (getenv environ (v.drop 1))) ∧
    (∀ v, dget env k = some v → strStartsWith v "$" = true →
      getenv environ (v.drop 1) = none →
      dget (expand_env environ env) k = some none ∧
        (some (none : Option String) ≠ some (some ""))) ∧
    (dget env k = none →
      dget (expand_env environ env) k = (getenv environ k).map some) := by
  refine ⟨fun v hv hs => ?_, fun v hv hs => ?_, fun v hv hs hu => ⟨?_, by simp⟩,
    fun hv => ?_⟩
  · rw [dget_expand_env environ env k, hv]
    simp [hs]
  · rw [dget_expand_env environ env k, hv]
    simp [hs]
  · rw [dget_expand_env environ env k, hv]
    simp [hs, hu]
  · rw [dget_expand_env environ env k, hv]

/-- Witness for C5 at a concrete environment: with TEST inherited as
test, a literal binding wins, an indirect reference to TEST resolves to
test, and an indirect reference to the unset name UNSET stores None. -/
theorem expand_env_spec_witness :
    dget (expand_env [("TEST", "test")]
      [("HOME", "$TEST"), ("A", "$UNSET"), ("B", "lit")]) "B" = some (some "lit") ∧
    dget (expand_env [("TEST", "test")]
      [("HOME", "$TEST"), ("A", "$UNSET"), ("B", "lit")]) "HOME"
        = some (some "test") ∧
    dget (expand_env [("TEST", "test")]
      [("HOME", "$TEST"), ("A", "$UNSET"), ("B", "lit")]) "A" = some none :=
  ⟨(expand_env_spec [("TEST", "test")]
      [("HOME", "$TEST"), ("A", "$UNSET"), ("B", "lit")] "B").1 "lit" rfl rfl,
    (expand_env_spec [("TEST", "test")]
      [("HOME", "$TEST"), ("A", "$UNSET"), ("B", "lit")] "HOME").2.1 "$TEST"
        rfl rfl,
    ((expand_env_spec [("TEST", "test")]
      [("HOME", "$TEST"), ("A", "$UNSET"), ("B", "lit")] "A").2.2.1 "$UNSET"
        rfl rfl rfl).1⟩

/-! ### Claim C3 — the Claude line-delimited-JSON parse step -/

theorem claude_scan_components (msgs : List JValue) :
    claude_scan msgs =
      (lastFieldValue msgs "total_cost_usd", lastFieldValue msgs "is_error",
        lastFieldValue msgs "result") := by
  induction msgs using List.reverseRecOn with
  | nil => rfl
  | append_singleton xs m ih =>
    unfold claude_scan at ih ⊢
    rw [List.foldl_append, List.foldl_cons, List.foldl_nil, ih]
    unfold lastFieldValue
    rw [List.reverse_append]
    simp only [List.reverse_cons, List.reverse_nil, List.nil_append,
      List.cons_append, List.singleton_append]
    cases h1 : objGet m "total_cost_usd" <;>
      cases h2 : objGet m "is_error" <;>
      cases h3 : objGet m "result" <;>
      simp [List.findSome?_cons, h1, h2, h3]

/-- Claim C3: the Claude parse step splits stdout on newlines, decodes
each non-empty line as one JSON object, and takes the cost field, the
error flag and the result text each from the last decoded object that
contains them; on the concrete two-line stdout of the claim the result
text is the string done and the cost is the decimal 0.5, that is one
half. -/
theorem claude_parse_last_wins :
    (∀ msgs : List JValue,
      claude_scan msgs =
        (lastFieldValue msgs "total_cost_usd", lastFieldValue msgs "is_error",
          lastFieldValue msgs "result")) ∧
    claude_parse "\x7b\"a\":1\x7d\n\x7b\"result\":\"done\",\"total_cost_usd\":0.5\x7d\n"
      = some (some (.num { mantissa := 5, exponent := -1 }), none,
          some (.str "done")) ∧
    JsonNumber.toRat { mantissa := 5, exponent := -1 } = 1 / 2 :=
  ⟨claude_scan_components, rfl, by norm_num [JsonNumber.toRat]⟩

/-! ### Claim C4 — the Gemini tagged-debug-block parse step -/

/-- Claim C4 counterexample: on the concrete stdout of the claim, the
block carrying type TypeA does not hold the text of the lines following
the tag until the next tag (that text, world plus newline, sits in a
separate untyped block): no block is typed TypeA with text world plus
newline. -/
theorem gemini_blocks_typed_text_counterexample :
    ¬ ∃ b ∈ gemini_blocks
        "[DEBUG] [TypeA] hello\nworld\n[DEBUG] [TypeB] goodbye\n",
      b.debug_type = some "TypeA" ∧ b.text = "world\n" := by
  decide

/-- Claim C4 amended: a tag line contributes a typed block whose text is
the trailing text of the tag line itself, intervening plain lines
accumulate with trailing newlines into separate untyped blocks, so the
concrete stdout parses into the four blocks below (TypeA block with text
hello, untyped world block, TypeB block with text goodbye, untyped final
newline block); the result text is the text of the last block, and raw
stdout is used when no block was produced. -/
theorem gemini_blocks_amended :
    gemini_blocks "[DEBUG] [TypeA] hello\nworld\n[DEBUG] [TypeB] goodbye\n"
      = [{ debug_type := some "TypeA", text := "hello" },
          { debug_type := none, text := "world\n" },
          { debug_type := some "TypeB", text := "goodbye" },
          { debug_type := none, text := "\n" }] ∧
    gemini_result_text "[DEBUG] [TypeA] hello\nworld\n[DEBUG] [TypeB] goodbye\n"
      = "\n" ∧
    (∀ stdout b, (gemini_blocks stdout).getLast? = some b →
      gemini_result_text stdout = b.text) ∧
    (∀ stdout, gemini_blocks stdout = [] → gemini_result_text stdout = stdout) := by
  refine ⟨by decide, rfl, fun stdout b hb => ?_, fun stdout hb => ?_⟩
  · rw [gemini_result_text, hb]
  · rw [gemini_result_text, hb]
    rfl

/-- Witness for the amended C4 at concrete inputs: the last-block rule
on the stdout of the claim, and the raw-stdout fallback on an input
whose only line carries the debug prefix but matches no tag pattern, so
no block is produced. -/
theorem gemini_blocks_amended_witness :
    gemini_result_text "[DEBUG] [TypeA] hello\nworld\n[DEBUG] [TypeB] goodbye\n"
      = "\n" ∧
    gemini_result_text "[DEBUG]x" = "[DEBUG]x" :=
  ⟨(gemini_blocks_amended.2.2.1
      "[DEBUG] [TypeA] hello\nworld\n[DEBUG] [TypeB] goodbye\n"
      { debug_type := none, text := "\n" } (by decide)),
    gemini_blocks_amended.2.2.2 "[DEBUG]x" (by decide)⟩

/-! ### Claim C6 — the Config Materializer -/

theorem materialize_objects_error_of_unknown
    (yaml_dump json_dumps : JValue → String) (obj : CoderConfigObject)
    (h1 : obj.file_type ≠ FileTypeTEXT) (h2 : obj.file_type ≠ FileTypeYAML)
    (h3 : obj.file_type ≠ FileTypeJSON) :
    ∀ (objs1 objs2 : List CoderConfigObject) (fs fs2 : List (String × String)),
      materialize_objects yaml_dump json_dumps fs (objs1 ++ obj :: objs2)
        ≠ .ok fs2 := by
  intro objs1
  induction objs1 with
  | nil =>
    intro objs2 fs fs2
    rw [List.nil_append]
    unfold materialize_objects materialize_object
    simp [h1, h2, h3]
  | cons o objs1 ih =>
    intro objs2 fs fs2
    rw [List.cons_append]
    unfold materialize_objects
    cases ho : materialize_object yaml_dump json_dumps fs o with
    | ok fsn => exact ih objs2 fsn fs2
    | error e => simp

/-- Claim C6: under any YAML and JSON encoders, a text config object is
written to its relative path verbatim, YAML and JSON objects are written
after serialization by the respective encoder, and a list containing an
object of any unrecognized format never reaches the subprocess stage:
the whole prepared run fails for every possible invocation. -/
theorem prepare_workdir_materialization
    (yaml_dump json_dumps : JValue → String) (fs : List (String × String))
    (obj : CoderConfigObject) :
    (obj.file_type = FileTypeTEXT → ∀ s, obj.content = .str s →
      materialize_object yaml_dump json_dumps fs obj =
        .ok (fsWrite fs obj.relative_path s)) ∧
    (obj.file_type = FileTypeYAML →
      materialize_object yaml_dump json_dumps fs obj =
        .ok (fsWrite fs obj.relative_path (yaml_dump obj.content))) ∧
    (obj.file_type = FileTypeJSON →
      materialize_object yaml_dump json_dumps fs obj =
        .ok (fsWrite fs obj.relative_path (json_dumps obj.content))) ∧
    (obj.file_type ≠ FileTypeTEXT → obj.file_type ≠ FileTypeYAML →
      obj.file_type ≠ FileTypeJSON →
      ∀ (objs1 objs2 : List CoderConfigObject)
        (invoke : List (String × String) → CoderOutput) (out : CoderOutput),
        run_after_prepare yaml_dump json_dumps fs (objs1 ++ obj :: objs2)
          invoke ≠ .ok out) := by
  refine ⟨fun ht s hs => ?_, fun hy => ?_, fun hj => ?_,
    fun h1 h2 h3 objs1 objs2 invoke out => ?_⟩
  · unfold materialize_object
    rw [hs]
    simp [ht]
  · unfold materialize_object
    simp [hy, FileTypeYAML, FileTypeTEXT]
  · unfold materialize_object
    simp [hj, FileTypeJSON, FileTypeYAML, FileTypeTEXT]
  · unfold run_after_prepare
    cases hm : materialize_objects yaml_dump json_dumps fs
        (objs1 ++ obj :: objs2) with
    | ok fs2 =>
      exact absurd hm
        (materialize_objects_error_of_unknown yaml_dump json_dumps obj
          h1 h2 h3 objs1 objs2 fs fs2)
    | error e => simp

/-- Witness for C6 at concrete encoders and objects: a verbatim text
write, an encoder-serialized YAML and JSON write, and a run whose object
list holds an object of the unknown format xml, which never reaches the
invocation. -/
theorem prepare_workdir_materialization_witness :
    materialize_object (fun _ => "Y") (fun _ => "J") []
        { file_type := "text", relative_path := "a.md", content := .str "hi" }
      = .ok (fsWrite [] "a.md" "hi") ∧
    materialize_object (fun _ => "Y") (fun _ => "J") []
        { file_type := "yaml", relative_path := "c.yaml", content := .null }
      = .ok (fsWrite [] "c.yaml" "Y") ∧
    materialize_object (fun _ => "Y") (fun _ => "J") []
        { file_type := "json", relative_path := "c.json", content := .null }
      = .ok (fsWrite [] "c.json" "J") ∧
    run_after_prepare (fun _ => "Y") (fun _ => "J") []
        ([] ++ ({ file_type := "xml", relative_path := "c.xml",
                  content := .null } : CoderConfigObject) ::
          ([] : List CoderConfigObject))
        (fun _ => ({ stdout := "", stderr := "" } : CoderOutput))
      ≠ .ok ({ stdout := "", stderr := "" } : CoderOutput) :=
  ⟨(prepare_workdir_materialization (fun _ => "Y") (fun _ => "J") []
      { file_type := "text", relative_path := "a.md", content := .str "hi" }).1
      rfl "hi" rfl,
    (prepare_workdir_materialization (fun _ => "Y") (fun _ => "J") []
      { file_type := "yaml", relative_path := "c.yaml", content := .null }).2.1
      rfl,
    (prepare_workdir_materialization (fun _ => "Y") (fun _ => "J") []
      { file_type := "json", relative_path := "c.json", content := .null }).2.2.1
      rfl,
    (prepare_workdir_materialization (fun _ => "Y") (fun _ => "J") []
      { file_type := "xml", relative_path := "c.xml", content := .null }).2.2.2
      (by decide) (by decide) (by decide) [] []
      (fun _ => ({ stdout := "", stderr := "" } : CoderOutput))
      { stdout := "", stderr := "" }⟩

/-! ### Claim C8 — HTTP extension declarations -/

/-- Claim C8 counterexample: the Goose adapter does not raise on a
network-based declaration; translating an enabled HTTP declaration
produces a native extension entry (placed in the extensions dict under
its name) whose type field is http, a silently accepted partial entry
rather than an unsupported-feature error. -/
theorem goose_http_no_error_counterexample :
    dget (goose_extensions_dict
        [{ name := "h", type := .http, command := some "c" }]) "h"
      = some (.obj (mcp_config_to_goose_extension
          { name := "h", type := .http, command := some "c" })) ∧
    dget (mcp_config_to_goose_extension
        { name := "h", type := .http, command := some "c" }) "type"
      = some (.str "http") := by
  constructor
  · rfl
  · rfl

/-- Claim C8 amended: the Claude and Gemini adapters raise the
NotImplementedError condition when translating an HTTP declaration,
immediately at configuration-translation time; the Goose adapter does
not raise and instead emits a native entry whose type field is http. -/
theorem http_mcp_translation (mcp : MCPConfig) (h : mcp.type = .http) :
    mcp_config_to_claude_format mcp =
      .error "HTTP MCPs are not supported for this wrapper yet" ∧
    mcp_config_to_gemini_format mcp =
      .error "HTTP MCPs are not supported for Gemini CLI yet" ∧
    dget (mcp_config_to_goose_extension mcp) "type" = some (.str "http") := by
  refine ⟨?_, ?_, ?_⟩
  · unfold mcp_config_to_claude_format
    simp [h]
  · unfold mcp_config_to_gemini_format
    simp [h]
  · unfold mcp_config_to_goose_extension
    by_cases hd : optStrTruthy mcp.description = true <;>
      by_cases hc : optStrTruthy mcp.command = true <;>
      by_cases ha : mcp.args.isEmpty = true <;>
      by_cases he : mcp.env.isEmpty = true <;>
      simp [dget_append, dget, hd, hc, ha, he, h, MCPType.value]

/-- Witness for the amended C8 at a concrete HTTP declaration. -/
theorem http_mcp_translation_witness :
    mcp_config_to_claude_format { name := "h", type := .http } =
      .error "HTTP MCPs are not supported for this wrapper yet" ∧
    mcp_config_to_gemini_format { name := "h", type := .http } =
      .error "HTTP MCPs are not supported for Gemini CLI yet" ∧
    dget (mcp_config_to_goose_extension { name := "h", type := .http }) "type"
      = some (.str "http") :=
  http_mcp_translation { name := "h", type := .http } rfl

/-! ### Claim C9 — merging an extension collection -/

/-- Claim C9 counterexample: merging a collection whose server shares
the name dup with an already-present extension keeps the already-present
one (its command stays x, not the merged-in y), so the later-written
declaration is not the one retained; and a collection carrying two
servers of the same name yields a config whose extension names are not
unique. -/
theorem merge_mcp_extensions_counterexample :
    (merge_mcp_extensions
        (some { ai_model := { name := "m" },
                extensions := [{ name := "dup", command := some "x" }] })
        (some { servers := [{ name := "dup", command := some "y" }] })
        none).map (·.extensions)
      = some [{ name := "dup", command := some "x" }] ∧
    ({ name := "dup", command := some "x" } : MCPConfig)
      ≠ ({ name := "dup", command := some "y" } : MCPConfig) ∧
    (merge_mcp_extensions
        (some { ai_model := { name := "m" }, extensions := [] })
        (some { servers := [{ name := "dup", command := some "x" },
                            { name := "dup", command := some "y" }] })
        none).map (fun c => c.extensions.map (·.name))
      = some ["dup", "dup"] ∧
    ¬ (["dup", "dup"] : List String).Nodup := by
  refine ⟨rfl, by decide, rfl, by decide⟩

/-- Claim C9 amended: merging appends the filtered collection entries
whose names are not already present, in order, after the original
extensions; a merged-in declaration colliding with an existing name is
skipped, so the earlier-written declaration is retained
(first-write-wins); every appended entry comes from the collection and
carries a name absent from the original config, and the resulting names
are unique whenever the original names are unique and the appended
entries carry no duplicate names among themselves. -/
theorem merge_mcp_extensions_first_wins (cfg : CoderConfig)
    (coll : MCPCollectionConfig) (enabled_mcps : Option (List String)) :
    (merge_mcp_extensions (some cfg) (some coll) enabled_mcps).map
        (·.extensions)
      = some (cfg.extensions ++ merged_added cfg coll enabled_mcps) ∧
    (∀ mcp ∈ merged_added cfg coll enabled_mcps,
      mcp ∈ coll.servers ∧ mcp.name ∉ cfg.extensions.map (·.name)) ∧
    ((cfg.extensions.map (·.name)).Nodup →
      ((merged_added cfg coll enabled_mcps).map (·.name)).Nodup →
      ((cfg.extensions ++ merged_added cfg coll enabled_mcps).map
        (·.name)).Nodup) := by
  refine ⟨rfl, fun mcp hm => ?_, fun h1 h2 => ?_⟩
  · unfold merged_added at hm
    rw [List.mem_filter] at hm
    rcases hm with ⟨hm1, hm2⟩
    rw [List.mem_filter] at hm1
    refine ⟨hm1.1, ?_⟩
    simpa using hm2
  · rw [List.map_append, List.nodup_append]
    refine ⟨h1, h2, fun x hx1 hx2 => ?_⟩
    rw [List.mem_map] at hx2
    rcases hx2 with ⟨mcp, hm, hname⟩
    unfold merged_added at hm
    rw [List.mem_filter] at hm
    have := hm.2
    simp only [decide_eq_true_eq] at this
    exact this (hname ▸ hx1)

/-- Witness for the amended C9 at a concrete merge: the appended entries
and the uniqueness of the resulting names, both hypotheses discharged by
computation. -/
theorem merge_mcp_extensions_first_wins_witness :
    ((([{ name := "a", command := some "x" }] : List MCPConfig) ++
        merged_added
          { ai_model := { name := "m" },
            extensions := [{ name := "a", command := some "x" }] }
          { servers := [{ name := "a", command := some "y" },
                        { name := "b", command := some "z" }] }
          none).map (fun mcp => MCPConfig.name mcp)).Nodup :=
  (merge_mcp_extensions_first_wins
      { ai_model := { name := "m" },
        extensions := [{ name := "a", command := some "x" }] }
      { servers := [{ name := "a", command := some "y" },
                    { name := "b", command := some "z" }] }
      none).2.2 (by decide) (by decide)

/-! ### Claim C7 — extension translation into native configs -/

theorem mem_dset {α : Type} (d : List (String × α)) (k : String) (v : α)
    (p : String × α) (hp : p ∈ dset d k v) : p ∈ d ∨ p = (k, v) := by
  unfold dset at hp
  by_cases h : d.any (fun q => q.1 == k) = true
  · rw [if_pos h] at hp
    rw [List.mem_map] at hp
    rcases hp with ⟨q, hq, hqp⟩
    by_cases hk : q.1 = k
    · right
      rw [← hqp]
      simp [hk]
    · left
      rw [← hqp]
      simpa [hk] using hq
  · rw [if_neg h, List.mem_append] at hp
    rcases hp with hp | hp
    · exact Or.inl hp
    · right
      simpa using hp

theorem claude_mcp_servers_from_origin (exts : List MCPConfig) :
    ∀ (acc d : List (String × JValue)),
      claude_mcp_servers_from acc exts = .ok d →
      ∀ p ∈ d, p ∈ acc ∨
        ∃ mcp ∈ exts, mcp.enabled = true ∧ p.1 = mcp.name ∧
          ∃ cfg, mcp_config_to_claude_format mcp = .ok cfg ∧
            p.2 = .obj cfg := by
  induction exts with
  | nil =>
    intro acc d h p hp
    rw [claude_mcp_servers_from] at h
    cases h
    exact Or.inl hp
  | cons mcp exts ih =>
    intro acc d h p hp
    rw [claude_mcp_servers_from] at h
    by_cases he : mcp.enabled = true
    · rw [if_pos he] at h
      cases hc : mcp_config_to_claude_format mcp with
      | ok cfg =>
        rw [hc] at h
        rcases ih _ _ h p hp with hacc | ⟨m, hm, rest⟩
        · rcases mem_dset _ _ _ _ hacc with hacc2 | rfl
          · exact Or.inl hacc2
          · exact Or.inr ⟨mcp, List.mem_cons_self .., he, rfl, cfg, hc, rfl⟩
        · exact Or.inr ⟨m, List.mem_cons_of_mem _ hm, rest⟩
      | error e =>
        rw [hc] at h
        cases h
    · rw [if_neg he] at h
      rcases ih _ _ h p hp with hacc | ⟨m, hm, rest⟩
      · exact Or.inl hacc
      · exact Or.inr ⟨m, List.mem_cons_of_mem _ hm, rest⟩

theorem gemini_mcp_servers_from_origin (exts : List MCPConfig) :
    ∀ (acc d : List (String × JValue)),
      gemini_mcp_servers_from acc exts = .ok d →
      ∀ p ∈ d, p ∈ acc ∨
        ∃ mcp ∈ exts, mcp.enabled = true ∧ p.1 = mcp.name ∧
          ∃ cfg, mcp_config_to_gemini_format mcp = .ok cfg ∧
            p.2 = .obj cfg := by
  induction exts with
  | nil =>
    intro acc d h p hp
    rw [gemini_mcp_servers_from] at h
    cases h
    exact Or.inl hp
  | cons mcp exts ih =>
    intro acc d h p hp
    rw [gemini_mcp_servers_from] at h
    by_cases he : mcp.enabled = true
    · rw [if_pos he] at h
      cases hc : mcp_config_to_gemini_format mcp with
      | ok cfg =>
        rw [hc] at h
        rcases ih _ _ h p hp with hacc | ⟨m, hm, rest⟩
        · rcases mem_dset _ _ _ _ hacc with hacc2 | rfl
          · exact Or.inl hacc2
          · exact Or.inr ⟨mcp, List.mem_cons_self .., he, rfl, cfg, hc, rfl⟩
        · exact Or.inr ⟨m, List.mem_cons_of_mem _ hm, rest⟩
      | error e =>
        rw [hc] at h
        cases h
    · rw [if_neg he] at h
      rcases ih _ _ h p hp with hacc | ⟨m, hm, rest⟩
      · exact Or.inl hacc
      · exact Or.inr ⟨m, List.mem_cons_of_mem _ hm, rest⟩

theorem goose_foldl_origin (exts : List MCPConfig) :
    ∀ (acc : List (String × JValue)) (p : String × JValue),
      p ∈ exts.foldl
        (fun acc mcp =>
          if mcp.enabled then
            dset acc mcp.name (JValue.obj (mcp_config_to_goose_extension mcp))
          else acc) acc →
      p ∈ acc ∨
        ∃ mcp ∈ exts, mcp.enabled = true ∧
          p = (mcp.name, .obj (mcp_config_to_goose_extension mcp)) := by
  induction exts with
  | nil =>
    intro acc p hp
    exact Or.inl hp
  | cons mcp exts ih =>
    intro acc p hp
    rw [List.foldl_cons] at hp
    rcases ih _ p hp with hacc | ⟨m, hm, rest⟩
    · by_cases he : mcp.enabled = true
      · rw [if_pos he] at hacc
        rcases mem_dset _ _ _ _ hacc with hacc2 | rfl
        · exact Or.inl hacc2
        · exact Or.inr ⟨mcp, List.mem_cons_self .., he, rfl⟩
      · rw [if_neg he] at hacc
        exact Or.inl hacc
    · exact Or.inr ⟨m, List.mem_cons_of_mem _ hm, rest⟩

theorem claude_format_verbatim (mcp : MCPConfig) (c : String)
    (ht : mcp.type = .stdio) (hc : mcp.command = some c) (hne : c ≠ "") :
    ∃ cfg, mcp_config_to_claude_format mcp = .ok cfg ∧
      dget cfg "command" = some (.str c) ∧
      (mcp.args.isEmpty = false →
        dget cfg "args" = some (.arr (mcp.args.map JValue.str))) ∧
      (mcp.env.isEmpty = false →
        dget cfg "env" =
          some (.obj (mcp.env.map (fun p => (p.1, JValue.str p.2))))) := by
  by_cases ha : mcp.args.isEmpty <;> by_cases he : mcp.env.isEmpty
  · exact ⟨[("command", JValue.str c)],
      by simp [mcp_config_to_claude_format, ht, hc, hne, ha, he, optStrTruthy],
      by simp [dget], by simp [ha], by simp [he]⟩
  · exact ⟨[("command", JValue.str c),
        ("env", JValue.obj (mcp.env.map (fun p => (p.1, JValue.str p.2))))],
      by simp [mcp_config_to_claude_format, ht, hc, hne, ha, he, optStrTruthy],
      by simp [dget], by simp [ha], fun _ => by simp [dget]⟩
  · exact ⟨[("command", JValue.str c),
        ("args", JValue.arr (mcp.args.map JValue.str))],
      by simp [mcp_config_to_claude_format, ht, hc, hne, ha, he, optStrTruthy],
      by simp [dget], fun _ => by simp [dget], by simp [he]⟩
  · exact ⟨[("command", JValue.str c),
        ("args", JValue.arr (mcp.args.map JValue.str)),
        ("env", JValue.obj (mcp.env.map (fun p => (p.1, JValue.str p.2))))],
      by simp [mcp_config_to_claude_format, ht, hc, hne, ha, he, optStrTruthy],
      by simp [dget], fun _ => by simp [dget], fun _ => by simp [dget]⟩

theorem gemini_format_verbatim (mcp : MCPConfig) (c : String)
    (ht : mcp.type = .stdio) (hc : mcp.command = some c) (hne : c ≠ "") :
    ∃ cfg, mcp_config_to_gemini_format mcp = .ok cfg ∧
      dget cfg "command" = some (.str c) ∧
      (mcp.args.isEmpty = false →
        dget cfg "args" = some (.arr (mcp.args.map JValue.str))) ∧
      (mcp.env.isEmpty = false →
        dget cfg "env" =
          some (.obj (mcp.env.map (fun p => (p.1, JValue.str p.2))))) ∧
      dget cfg "timeout" = some (.num { mantissa := 30000 }) := by
  by_cases ha : mcp.args.isEmpty <;> by_cases he : mcp.env.isEmpty
  · exact ⟨[("command", JValue.str c),
        ("timeout", JValue.num { mantissa := 30000 })],
      by simp [mcp_config_to_gemini_format, ht, hc, hne, ha, he, optStrTruthy],
      by simp [dget], by simp [ha], by simp [he], by simp [dget]⟩
  · exact ⟨[("command", JValue.str c),
        ("env", JValue.obj (mcp.env.map (fun p => (p.1, JValue.str p.2)))),
        ("timeout", JValue.num { mantissa := 30000 })],
      by simp [mcp_config_to_gemini_format, ht, hc, hne, ha, he, optStrTruthy],
      by simp [dget], by simp [ha], fun _ => by simp [dget], by simp [dget]⟩
  · exact ⟨[("command", JValue.str c),
        ("args", JValue.arr (mcp.args.map JValue.str)),
        ("timeout", JValue.num { mantissa := 30000 })],
      by simp [mcp_config_to_gemini_format, ht, hc, hne, ha, he, optStrTruthy],
      by simp [dget], fun _ => by simp [dget], by simp [he], by simp [dget]⟩
  · exact ⟨[("command", JValue.str c),
        ("args", JValue.arr (mcp.args.map JValue.str)),
        ("env", JValue.obj (mcp.env.map (fun p => (p.1, JValue.str p.2)))),
        ("timeout", JValue.num { mantissa := 30000 })],
      by simp [mcp_config_to_gemini_format, ht, hc, hne, ha, he, optStrTruthy],
      by simp [dget], fun _ => by simp [dget], fun _ => by simp [dget],
      by simp [dget]⟩

theorem goose_extension_verbatim (mcp : MCPConfig) (c : String)
    (hc : mcp.command = some c) (hne : c ≠ "") :
    dget (mcp_config_to_goose_extension mcp) "cmd" = some (.str c) ∧
    (mcp.args.isEmpty = false →
      dget (mcp_config_to_goose_extension mcp) "args" =
        some (.arr (mcp.args.map JValue.str))) ∧
    (mcp.env.isEmpty = false →
      dget (mcp_config_to_goose_extension mcp) "envs" =
        some (.obj (mcp.env.map (fun p => (p.1, JValue.str p.2)))) ∧
      dget (mcp_config_to_goose_extension mcp) "env_keys" =
        some (.arr (mcp.env.map (fun p => JValue.str p.1)))) ∧
    dget (mcp_config_to_goose_extension mcp) "name" = some (.str mcp.name) ∧
    dget (mcp_config_to_goose_extension mcp) "enabled" =
      some (.bool mcp.enabled) ∧
    dget (mcp_config_to_goose_extension mcp) "timeout" =
      some (.num { mantissa := 300 }) := by
  have hcmd : optStrTruthy mcp.command = true := by
    simp [optStrTruthy, hc, hne]
  have hcg : mcp.command.getD "" = c := by simp [hc]
  unfold mcp_config_to_goose_extension
  by_cases hd : optStrTruthy mcp.description = true <;>
    by_cases ha : mcp.args.isEmpty <;> by_cases he : mcp.env.isEmpty <;>
    refine ⟨?_, ?_, ?_, ?_, ?_, ?_⟩ <;>
    simp [dget_append, dget, hd, hcmd, hcg, ha, he]

/-- Claim C7: in all three native translations (the Claude mcpServers
dict, the Gemini mcpServers dict, the Goose extensions dict) every
produced entry originates from an enabled declaration (apart from the
fixed built-in developer entry of Goose), so a disabled declaration
never appears; and an enabled pipe-based declaration keeps its command,
argument list and environment variables verbatim in the native entry,
apart from assistant-specific defaulted fields such as the fixed Gemini
timeout of 30000 and the fixed Goose timeout of 300. -/
theorem extension_translation_spec :
    (∀ (exts : List MCPConfig) (d : List (String × JValue)),
      claude_mcp_servers exts = .ok d →
      ∀ p ∈ d,
        ∃ mcp ∈ exts, mcp.enabled = true ∧ p.1 = mcp.name ∧
          ∃ cfg, mcp_config_to_claude_format mcp = .ok cfg ∧
            p.2 = .obj cfg) ∧
    (∀ (exts : List MCPConfig) (d : List (String × JValue)),
      gemini_mcp_servers exts = .ok d →
      ∀ p ∈ d,
        ∃ mcp ∈ exts, mcp.enabled = true ∧ p.1 = mcp.name ∧
          ∃ cfg, mcp_config_to_gemini_format mcp = .ok cfg ∧
            p.2 = .obj cfg) ∧
    (∀ (exts : List MCPConfig) (p : String × JValue),
      p ∈ goose_extensions_dict exts →
      p = ("developer", goose_developer_entry) ∨
        ∃ mcp ∈ exts, mcp.enabled = true ∧
          p = (mcp.name, .obj (mcp_config_to_goose_extension mcp))) ∧
    (∀ (mcp : MCPConfig) (c : String), mcp.type = .stdio →
      mcp.command = some c → c ≠ "" →
      ∃ cfg, mcp_config_to_claude_format mcp = .ok cfg ∧
        dget cfg "command" = some (.str c) ∧
        (mcp.args.isEmpty = false →
          dget cfg "args" = some (.arr (mcp.args.map JValue.str))) ∧
        (mcp.env.isEmpty = false →
          dget cfg "env" =
            some (.obj (mcp.env.map (fun p => (p.1, JValue.str p.2)))))) ∧
    (∀ (mcp : MCPConfig) (c : String), mcp.type = .stdio →
      mcp.command = some c → c ≠ "" →
      ∃ cfg, mcp_config_to_gemini_format mcp = .ok cfg ∧
        dget cfg "command" = some (.str c) ∧
        (mcp.args.isEmpty = false →
          dget cfg "args" = some (.arr (mcp.args.map JValue.str))) ∧
        (mcp.env.isEmpty = false →
          dget cfg "env" =
            some (.obj (mcp.env.map (fun p => (p.1, JValue.str p.2))))) ∧
        dget cfg "timeout" = some (.num { mantissa := 30000 })) ∧
    (∀ (mcp : MCPConfig) (c : String), mcp.command = some c → c ≠ "" →
      dget (mcp_config_to_goose_extension mcp) "cmd" = some (.str c) ∧
      (mcp.args.isEmpty = false →
        dget (mcp_config_to_goose_extension mcp) "args" =
          some (.arr (mcp.args.map JValue.str))) ∧
      (mcp.env.isEmpty = false →
        dget (mcp_config_to_goose_extension mcp) "envs" =
          some (.obj (mcp.env.map (fun p => (p.1, JValue.str p.2)))) ∧
        dget (mcp_config_to_goose_extension mcp) "env_keys" =
          some (.arr (mcp.env.map (fun p => JValue.str p.1)))) ∧
      dget (mcp_config_to_goose_extension mcp) "name" =
        some (.str mcp.name) ∧
      dget (mcp_config_to_goose_extension mcp) "enabled" =
        some (.bool mcp.enabled) ∧
      dget (mcp_config_to_goose_extension mcp) "timeout" =
        some (.num { mantissa := 300 })) := by
  refine ⟨fun exts d h p hp => ?_, fun exts d h p hp => ?_,
    fun exts p hp => ?_, claude_format_verbatim, gemini_format_verbatim,
    goose_extension_verbatim⟩
  · rcases claude_mcp_servers_from_origin exts [] d h p hp with hacc | hm
    · cases hacc
    · exact hm
  · rcases gemini_mcp_servers_from_origin exts [] d h p hp with hacc | hm
    · cases hacc
    · exact hm
  · unfold goose_extensions_dict at hp
    rcases goose_foldl_origin exts _ p hp with hacc | hm
    · left
      simpa using hacc
    · exact Or.inr hm

/-- Witness for C7: the translation spec applied to one concrete enabled
stdio declaration (name s1, command npx, one argument, one environment
variable) next to one disabled declaration; the single Claude entry is
traced back to the enabled declaration, and the verbatim field values
are produced on all three adapters. -/
theorem extension_translation_spec_witness :
    (∃ mcp ∈ ([{ name := "s0", enabled := false, type := .stdio,
                  command := some "c" },
                { name := "s1", type := .stdio, command := some "npx",
                  args := ["-y"], env := [("K", "V")] }] : List MCPConfig),
      mcp.enabled = true ∧
        (("s1",
          JValue.obj [("command", JValue.str "npx"),
            ("args", JValue.arr [JValue.str "-y"]),
            ("env", JValue.obj [("K", JValue.str "V")])]) :
              String × JValue).1 = mcp.name ∧
        ∃ cfg, mcp_config_to_claude_format mcp = .ok cfg ∧
          (("s1",
            JValue.obj [("command", JValue.str "npx"),
              ("args", JValue.arr [JValue.str "-y"]),
              ("env", JValue.obj [("K", JValue.str "V")])]) :
                String × JValue).2 = .obj cfg) ∧
    (∃ cfg, mcp_config_to_gemini_format
        { name := "s1", type := .stdio, command := some "npx",
          args := ["-y"], env := [("K", "V")] } = .ok cfg ∧
      dget cfg "command" = some (.str "npx") ∧
      (([("-y")] : List String).isEmpty = false →
        dget cfg "args" = some (.arr ([("-y")].map JValue.str))) ∧
      (([("K", "V")] : List (String × String)).isEmpty = false →
        dget cfg "env" =
          some (.obj ([("K", "V")].map (fun p => (p.1, JValue.str p.2))))) ∧
      dget cfg "timeout" = some (.num { mantissa := 30000 })) ∧
    dget (mcp_config_to_goose_extension
        { name := "s1", type := .stdio, command := some "npx",
          args := ["-y"], env := [("K", "V")] }) "cmd"
      = some (.str "npx") :=
  ⟨extension_translation_spec.1
      [{ name := "s0", enabled := false, type := .stdio, command := some "c" },
        { name := "s1", type := .stdio, command := some "npx",
          args := ["-y"], env := [("K", "V")] }]
      [("s1",
        JValue.obj [("command", JValue.str "npx"),
          ("args", JValue.arr [JValue.str "-y"]),
          ("env", JValue.obj [("K", JValue.str "V")])])]
      rfl _ (List.mem_singleton.mpr rfl),
    extension_translation_spec.2.2.2.2.1
      { name := "s1", type := .stdio, command := some "npx",
        args := ["-y"], env := [("K", "V")] } "npx" rfl rfl (by decide),
    (extension_translation_spec.2.2.2.2.2
      { name := "s1", type := .stdio, command := some "npx",
        args := ["-y"], env := [("K", "V")] } "npx" rfl (by decide)).1⟩

end Metacoder
